import Mathlib

/-!
Shallow embedding of the GDSII-to-ASCII decoder (gds2ascii.py) and proofs
about it.

The byte source is modelled as a list of bytes together with a cursor
position (`ByteStream`); `ByteStream.read` returns up to `n` bytes and
advances the cursor by the number of bytes actually returned, exactly as a
binary file object does.  The opaque failure value `-1` that the Python
code returns from `readStream` (and an uncaught exception elsewhere) is
modelled by `none`.  Python floats are modelled by exact rationals `ℚ`;
machine integers by `Nat`/`Int` with explicit signed reinterpretation.
-/

/-- Byte source: an immutable list of bytes plus a cursor position. -/
structure ByteStream where
  data : List Nat
  pos : Nat
deriving Repr, DecidableEq

/-- Model of a binary file read: return up to `n` bytes from the current
position and advance the position by the number of bytes returned. -/
def ByteStream.read (s : ByteStream) (n : Nat) : List Nat × ByteStream :=
  let chunk := (s.data.drop s.pos).take n
  (chunk, ⟨s.data, s.pos + chunk.length⟩)

/-- Reinterpret a 16-bit unsigned value as signed (struct format code h). -/
def toSigned16 (u : Nat) : Int :=
  if u < 32768 then (u : Int) else (u : Int) - 65536

/-- Reinterpret an 8-bit unsigned value as signed (struct format code b). -/
def toSigned8 (u : Nat) : Int :=
  if u < 128 then (u : Int) else (u : Int) - 256

/-- Model of struct.unpack with format >h: requires exactly two bytes,
yields the big-endian signed 16-bit value. -/
def unpack_s16 (bs : List Nat) : Option Int :=
  match bs with
  | [a, b] => some (toSigned16 (a * 256 + b))
  | _ => none

/-- Model of struct.unpack with format >b: requires exactly one byte. -/
def unpack_s8 (bs : List Nat) : Option Int :=
  match bs with
  | [a] => some (toSigned8 a)
  | _ => none

/-- Model of struct.unpack with format >l: requires exactly four bytes,
yields the big-endian signed 32-bit value. -/
def unpack_s32 (bs : List Nat) : Option Int :=
  match bs with
  | [a, b, c, d] =>
    let u := ((a * 256 + b) * 256 + c) * 256 + d
    some (if u < 2147483648 then (u : Int) else (u : Int) - 4294967296)
  | _ => none

/-- The dat_size dictionary of readStream: element width per data type tag;
`none` models a KeyError for a tag outside the table. -/
def dat_size (t : Int) : Option Nat :=
  if t = 0 then some 1
  else if t = 1 then some 1
  else if t = 2 then some 2
  else if t = 3 then some 4
  else if t = 4 then some 4
  else if t = 5 then some 8
  else if t = 6 then some 1
  else none

/-- The list readStream returns on success:
[rec_size, [rec_type, dat_type], rec_data]. -/
structure GdsRecord where
  rec_size : Int
  rec_type : Int
  dat_type : Int
  rec_data : List (List Nat)
deriving Repr, DecidableEq

/-- The payload loop of readStream: n times, read w bytes (possibly fewer
near end of source) and collect the chunks in order. -/
def readChunks (n w : Nat) (s : ByteStream) : List (List Nat) × ByteStream :=
  match n with
  | 0 => ([], s)
  | Nat.succ m =>
    let r := s.read w
    let rest := readChunks m w r.2
    (r.1 :: rest.1, rest.2)

/-- Model of readStream: parse the 4-byte header (2-byte signed big-endian
record length, signed record type byte, signed data type byte), look up the
element width, then read (rec_size - 4) fdiv width chunks.  Any failure
(short header read, unknown data type tag) is caught by the bare except
and returned as the opaque value -1, modelled here as `none`; the stream is
left wherever the reads advanced it.  Note that the payload loop itself
cannot fail: short reads near end of source produce short chunks. -/
def readStream (s : ByteStream) : Option GdsRecord × ByteStream :=
  let r1 := s.read 2
  match unpack_s16 r1.1 with
  | none => (none, r1.2)
  | some rec_size =>
    let r2 := r1.2.read 1
    match unpack_s8 r2.1 with
    | none => (none, r2.2)
    | some rec_type =>
      let r3 := r2.2.read 1
      match unpack_s8 r3.1 with
      | none => (none, r3.2)
      | some dat_type =>
        match dat_size dat_type with
        | none => (none, r3.2)
        | some w =>
          let res := readChunks ((rec_size - 4).fdiv (w : Int)).toNat w r3.2
          (some ⟨rec_size, rec_type, dat_type, res.1⟩, res.2)

/-- Model of math.ldexp over exact rationals: scale by a power of two. -/
def ldexp (m : ℚ) (e : Int) : ℚ := m * (2 : ℚ) ^ e

/-- Model of ibm370_to_ieee754: sign from the top bit of byte 0, base-2
exponent 4 * ((byte0 AND 0x7f) - 64), mantissa accumulated over bytes 1..7
with a divisor starting at 256 and multiplied by 256 each step, result
sign * ldexp mantissa exponent2.  Python float arithmetic is modelled by
exact rationals. -/
def ibm370_to_ieee754 (ibm_bytes : List Nat) : ℚ :=
  let sign : ℚ := if ibm_bytes.getD 0 0 &&& 0x80 ≠ 0 then -1 else 1
  let exponent2 : Int := 4 * (((ibm_bytes.getD 0 0 &&& 0x7f : Nat) : Int) - 64)
  let m := (List.range' 1 7).foldl
    (fun acc i => (acc.1 + (ibm_bytes.getD i 0 : ℚ) / acc.2, acc.2 * 256))
    ((0 : ℚ), (256 : ℚ))
  sign * ldexp m.1 exponent2

/-- Value of one decoded field, the tagged union of what extractData can
append: a Python int (from >h or >l), a single-precision float value
(from >f), a double (from ibm370_to_ieee754), or a one-character string
(from >c plus UTF-8 decoding). -/
inductive DecodedValue where
  | intVal (n : Int)
  | f32Val (v : Option ℚ)
  | f64Val (q : ℚ)
  | charVal (c : Char)
deriving Repr, DecidableEq

/-- Combine IEEE754 single-precision fields into a value: `none` models the
non-finite results (infinities and NaN, which exact rationals cannot carry),
`some q` an exactly represented finite value. -/
def f32val (s e f : Nat) : Option ℚ :=
  if e = 255 then none
  else if e = 0 then
    some ((if s = 1 then -1 else 1) * ((f : ℚ) * (2 : ℚ) ^ (-(149 : Int))))
  else
    some ((if s = 1 then -1 else 1) *
      ((1 + (f : ℚ) / 2 ^ 23) * (2 : ℚ) ^ ((e : Int) - 127)))

/-- Model of struct.unpack with format >f: requires exactly four bytes,
assembles the big-endian 32-bit word and splits it into sign, exponent and
fraction by shifts and masks. -/
def unpack_f32 (bs : List Nat) : Option (Option ℚ) :=
  match bs with
  | [a, b, c, d] =>
    let u := ((a * 256 + b) * 256 + c) * 256 + d
    some (f32val (u >>> 31) ((u >>> 23) % 256) (u % 8388608))
  | _ => none

/-- Model of struct.unpack with format >c followed by bytes.decode(utf-8):
requires exactly one byte, which decodes as a standalone UTF-8 unit exactly
when it is below 0x80. -/
def unpack_c (bs : List Nat) : Option Char :=
  match bs with
  | [a] => if a < 128 then some (Char.ofNat a) else none
  | _ => none

/-- Option-valued map over a list, failing at the first failing element:
models a Python loop of data.append(f(x)) where f may raise. -/
def mapMO (f : α → Option β) : List α → Option (List β)
  | [] => some []
  | a :: l =>
    match f a with
    | none => none
    | some b =>
      match mapMO f l with
      | none => none
      | some bs => some (b :: bs)

/-- Model of a Python loop for i in range(0, n): data.append(f(chunks[i])).
Indexing past the end raises (IndexError), so the loop succeeds only when
n is at most the number of chunks and every element decodes. -/
def indexMapM (chunks : List (List Nat)) (n : Nat)
    (f : List Nat → Option DecodedValue) : Option (List DecodedValue) :=
  if n ≤ chunks.length then mapMO f (chunks.take n) else none

/-- Model of extractData: dispatch on the data type tag.  Tags 0 and 1
yield the empty list; tag 2 unpacks >h per 2-byte chunk, tag 3 unpacks >l
per 4-byte chunk, tag 4 unpacks >f per 4-byte chunk, tag 5 converts each
8-byte chunk with ibm370_to_ieee754 (indexing bytes 0..7, hence a chunk
shorter than 8 raises), and any other tag (the ASCII default) unpacks >c
per 1-byte chunk and decodes it as UTF-8.  An uncaught exception is
modelled as `none`; extractData has no handler of its own. -/
def extractData (r : GdsRecord) : Option (List DecodedValue) :=
  if r.dat_type = 0 then some []
  else if r.dat_type = 1 then some []
  else if r.dat_type = 2 then
    indexMapM r.rec_data ((r.rec_size - 4).fdiv 2).toNat
      (fun c => (unpack_s16 c).map DecodedValue.intVal)
  else if r.dat_type = 3 then
    indexMapM r.rec_data ((r.rec_size - 4).fdiv 4).toNat
      (fun c => (unpack_s32 c).map DecodedValue.intVal)
  else if r.dat_type = 4 then
    indexMapM r.rec_data ((r.rec_size - 4).fdiv 4).toNat
      (fun c => (unpack_f32 c).map DecodedValue.f32Val)
  else if r.dat_type = 5 then
    indexMapM r.rec_data ((r.rec_size - 4).fdiv 8).toNat
      (fun c => if c.length = 8 then some (DecodedValue.f64Val (ibm370_to_ieee754 c)) else none)
  else
    indexMapM r.rec_data (r.rec_size - 4).toNat
      (fun c => (unpack_c c).map DecodedValue.charVal)

/-- Model of appendName: the fixed record-type-name table; `none` models a
KeyError on a tag outside the table. -/
def appendName (r : GdsRecord) : Option String :=
  match r.rec_type with
  | 0x00 => some "HEADER"
  | 0x01 => some "BGNLIB"
  | 0x02 => some "LIBNAME"
  | 0x03 => some "UNITS"
  | 0x04 => some "ENDLIB"
  | 0x05 => some "BGNSTR"
  | 0x06 => some "STRNAME"
  | 0x07 => some "ENDSTR"
  | 0x08 => some "BONDARY"
  | 0x09 => some "PATH"
  | 0x0A => some "SERF"
  | 0x0B => some "AREF"
  | 0x0C => some "TEXT"
  | 0x0D => some "LAYER"
  | 0x0E => some "DATATYPE"
  | 0x0F => some "WIDTH"
  | 0x10 => some "XY"
  | 0x11 => some "ENDEL"
  | 0x12 => some "SNAME"
  | 0x13 => some "COLROW"
  | 0x15 => some "NODE"
  | 0x16 => some "TEXTTYPE"
  | 0x17 => some "PRESENTATION"
  | 0x19 => some "STRING"
  | 0x1A => some "STRANS"
  | 0x1B => some "MAG"
  | 0x1C => some "ANGLE"
  | 0x1F => some "REFLIBS"
  | 0x20 => some "FONTS"
  | 0x21 => some "PATHTYPE"
  | 0x22 => some "GENERATIONS"
  | 0x23 => some "ATTRATABLE"
  | 0x26 => some "ELFLAGS"
  | 0x2A => some "NODETYPE"
  | 0x2B => some "PROPATTR"
  | 0x2C => some "PROPVALUE"
  | 0x2D => some "BOX"
  | 0x2E => some "BOXTYPE"
  | 0x2F => some "PLEX"
  | 0x32 => some "TAPENUM"
  | 0x33 => some "TAPECODE"
  | 0x36 => some "FORMAT"
  | 0x37 => some "MASK"
  | 0x38 => some "ENDMASKS"
  | _ => none

/-- One output entry: a record name paired with its decoded values. -/
abbrev Entry := String × List DecodedValue

/-- Model of the while loop of main: read a record, extract its data,
resolve its name, append the entry, and stop once a record with record
type 0x04 has been appended.  A readStream failure (-1) makes the
subsequent subscripting raise, and a KeyError or struct/Unicode error
raises too: all crashes are `none`.  The fuel argument bounds the number
of iterations; every successful iteration consumes at least four bytes,
so data.length + 1 fuel is always enough. -/
def mainLoop (fuel : Nat) (s : ByteStream) (acc : List Entry) :
    Option (List Entry) :=
  match fuel with
  | 0 => none
  | Nat.succ f =>
    let r := readStream s
    match r.1 with
    | none => none
    | some rec =>
      match extractData rec with
      | none => none
      | some data =>
        match appendName rec with
        | none => none
        | some name =>
          let acc' := acc ++ [(name, data)]
          if rec.rec_type = 0x04 then some acc'
          else mainLoop f r.2 acc'

/-- One whole decode run of main over a byte source. -/
def runDecoder (s : ByteStream) : Option (List Entry) :=
  mainLoop (s.data.length + 1) s []

/-! ## The float converter: spec-side definitions and helper lemmas -/

/-- Spec-side definition of the mantissa: sum over i = 1..7 of byte i over
256^i, written exactly as the specification states it. -/
def mantissaSpec (b : List Nat) : ℚ :=
  (b.getD 1 0 : ℚ) / 256 + (b.getD 2 0 : ℚ) / 256 ^ 2 + (b.getD 3 0 : ℚ) / 256 ^ 3 +
  (b.getD 4 0 : ℚ) / 256 ^ 4 + (b.getD 5 0 : ℚ) / 256 ^ 5 + (b.getD 6 0 : ℚ) / 256 ^ 6 +
  (b.getD 7 0 : ℚ) / 256 ^ 7

lemma range_one_seven : List.range' 1 7 = [1, 2, 3, 4, 5, 6, 7] := rfl

/-- The converter loop computes exactly the closed-form mantissa, scaled by
ldexp and signed by the top bit of byte 0. -/
lemma ibm370_eq (b : List Nat) :
    ibm370_to_ieee754 b =
      (if b.getD 0 0 &&& 128 ≠ 0 then (-1 : ℚ) else 1) *
        ldexp (mantissaSpec b) (4 * (((b.getD 0 0 &&& 127 : Nat) : Int) - 64)) := by
  rw [ibm370_to_ieee754, range_one_seven]
  simp only [List.foldl]
  rw [mantissaSpec, ldexp, ldexp]
  ring_nf

lemma getD_lt_256 (b : List Nat) (hb : ∀ x ∈ b, x < 256) (i : Nat) : b.getD i 0 < 256 := by
  rcases lt_or_ge i b.length with h | h
  · rw [List.getD_eq_getElem b 0 h]
    exact hb _ (List.getElem_mem h)
  · rw [List.getD_eq_default b 0 h]
    omega

/-- The truthiness test on byte0 AND 0x80 agrees with testing bit 7. -/
lemma sign_testBit (n : Nat) :
    (if n &&& 128 ≠ 0 then (-1 : ℚ) else 1) = (if n.testBit 7 then (-1 : ℚ) else 1) := by
  have h : n &&& 128 = (n.testBit 7).toNat * 128 := by
    have := Nat.and_two_pow n 7
    norm_num at this
    exact this
  rcases hc : n.testBit 7 <;> simp [h, hc]

lemma getD_set_zero (b : List Nat) (v : Nat) (h : 0 < b.length) :
    (b.set 0 v).getD 0 0 = v := by
  simp [List.getD, List.getElem?_set_eq_of_lt v h]

lemma getD_set_ne_zero (b : List Nat) (v : Nat) (i : Nat) (hi : i ≠ 0) :
    (b.set 0 v).getD i 0 = b.getD i 0 := by
  simp [List.getD, List.getElem?_set_ne (Ne.symm hi)]

set_option maxRecDepth 10000 in
/-- Flipping the top bit of a byte toggles the AND-0x80 test and leaves the
low seven bits unchanged. -/
lemma flip_facts : ∀ n, n < 256 →
    (((n ^^^ 128) &&& 128 = 0 ↔ ¬(n &&& 128 = 0)) ∧ (n ^^^ 128) &&& 127 = n &&& 127) := by
  decide

/-! ## Claim theorems for the float converter -/

/-- C1: for every 8-byte input b, ibm370_to_ieee754 returns
sign * mantissa * 2^exponent2 with sign -1 exactly when bit 7 of byte 0 is
set, exponent2 = 4 * ((byte0 AND 0x7F) - 64), and
mantissa = sum of byte i / 256^i for i = 1..7, a value in [0, 1); the
scaling is a binary-exponent scale operation (ldexp). -/
theorem claim1_ibm370_formula (b : List Nat) (hlen : b.length = 8)
    (hb : ∀ x ∈ b, x < 256) :
    ibm370_to_ieee754 b =
      (if (b.getD 0 0).testBit 7 then (-1 : ℚ) else 1) *
        ldexp (mantissaSpec b) (4 * (((b.getD 0 0 &&& 0x7f : Nat) : Int) - 64)) ∧
    ldexp (mantissaSpec b) (4 * (((b.getD 0 0 &&& 0x7f : Nat) : Int) - 64)) =
      mantissaSpec b * (2 : ℚ) ^ (4 * (((b.getD 0 0 &&& 0x7f : Nat) : Int) - 64)) ∧
    0 ≤ mantissaSpec b ∧ mantissaSpec b < 1 := by
  refine ⟨?_, rfl, ?_, ?_⟩
  · rw [ibm370_eq, sign_testBit]
  · rw [mantissaSpec]
    positivity
  · have q1 : (b.getD 1 0 : ℚ) ≤ 255 := by
      exact_mod_cast Nat.le_of_lt_succ (getD_lt_256 b hb 1)
    have q2 : (b.getD 2 0 : ℚ) ≤ 255 := by
      exact_mod_cast Nat.le_of_lt_succ (getD_lt_256 b hb 2)
    have q3 : (b.getD 3 0 : ℚ) ≤ 255 := by
      exact_mod_cast Nat.le_of_lt_succ (getD_lt_256 b hb 3)
    have q4 : (b.getD 4 0 : ℚ) ≤ 255 := by
      exact_mod_cast Nat.le_of_lt_succ (getD_lt_256 b hb 4)
    have q5 : (b.getD 5 0 : ℚ) ≤ 255 := by
      exact_mod_cast Nat.le_of_lt_succ (getD_lt_256 b hb 5)
    have q6 : (b.getD 6 0 : ℚ) ≤ 255 := by
      exact_mod_cast Nat.le_of_lt_succ (getD_lt_256 b hb 6)
    have q7 : (b.getD 7 0 : ℚ) ≤ 255 := by
      exact_mod_cast Nat.le_of_lt_succ (getD_lt_256 b hb 7)
    rw [mantissaSpec]
    have w1 : (b.getD 1 0 : ℚ) / 256 ≤ 255 / 256 := by linarith
    have w2 : (b.getD 2 0 : ℚ) / 256 ^ 2 ≤ 255 / 256 ^ 2 := by linarith
    have w3 : (b.getD 3 0 : ℚ) / 256 ^ 3 ≤ 255 / 256 ^ 3 := by linarith
    have w4 : (b.getD 4 0 : ℚ) / 256 ^ 4 ≤ 255 / 256 ^ 4 := by linarith
    have w5 : (b.getD 5 0 : ℚ) / 256 ^ 5 ≤ 255 / 256 ^ 5 := by linarith
    have w6 : (b.getD 6 0 : ℚ) / 256 ^ 6 ≤ 255 / 256 ^ 6 := by linarith
    have w7 : (b.getD 7 0 : ℚ) / 256 ^ 7 ≤ 255 / 256 ^ 7 := by linarith
    have hs : (255 : ℚ) / 256 + 255 / 256 ^ 2 + 255 / 256 ^ 3 + 255 / 256 ^ 4 +
        255 / 256 ^ 5 + 255 / 256 ^ 6 + 255 / 256 ^ 7 < 1 := by norm_num
    linarith

/-- Witness for C1 at the 0.001 test vector. -/
theorem claim1_ibm370_formula_witness :
    ([0x3e, 0x41, 0x89, 0x37, 0x4b, 0xc6, 0xa7, 0xf0] : List Nat).length = 8 ∧
    (∀ x ∈ ([0x3e, 0x41, 0x89, 0x37, 0x4b, 0xc6, 0xa7, 0xf0] : List Nat), x < 256) ∧
    (0 ≤ mantissaSpec [0x3e, 0x41, 0x89, 0x37, 0x4b, 0xc6, 0xa7, 0xf0] ∧
      mantissaSpec [0x3e, 0x41, 0x89, 0x37, 0x4b, 0xc6, 0xa7, 0xf0] < 1) :=
  ⟨rfl, by decide,
    (claim1_ibm370_formula [0x3e, 0x41, 0x89, 0x37, 0x4b, 0xc6, 0xa7, 0xf0]
      rfl (by decide)).2.2.1,
    (claim1_ibm370_formula [0x3e, 0x41, 0x89, 0x37, 0x4b, 0xc6, 0xa7, 0xf0]
      rfl (by decide)).2.2.2⟩

/-- C2: the converter is a total function in this model (it is a plain Lean
function on byte lists, with no state and no exceptions), and converting
eight zero bytes yields exactly 0, falling out of the general formula: the
definition has no zero branch. -/
theorem claim2_ibm370_zero : ibm370_to_ieee754 (List.replicate 8 0) = 0 := by
  norm_num [ibm370_to_ieee754, ldexp, range_one_seven,
    show (0 &&& 128 : Nat) = 0 from rfl, show (0 &&& 127 : Nat) = 0 from rfl]

/-- C3: the two documented test vectors convert to 0.001 and 1e-9 within
one double-precision ulp (2^-62 around 0.001, 2^-82 around 1e-9). -/
theorem claim3_ibm370_test_vectors :
    |ibm370_to_ieee754 [0x3e, 0x41, 0x89, 0x37, 0x4b, 0xc6, 0xa7, 0xf0] - 1 / 1000| <
      (1 : ℚ) / 2 ^ 62 ∧
    |ibm370_to_ieee754 [0x39, 0x44, 0xb8, 0x2f, 0xa0, 0x9b, 0x5a, 0x54] - 1 / 1000000000| <
      (1 : ℚ) / 2 ^ 82 := by
  have e1 : ibm370_to_ieee754 [0x3e, 0x41, 0x89, 0x37, 0x4b, 0xc6, 0xa7, 0xf0] =
      (18446744073709552 : ℚ) / 2 ^ 64 := by
    norm_num [ibm370_to_ieee754, ldexp, range_one_seven,
      show (62 &&& 128 : Nat) = 0 from rfl, show (62 &&& 127 : Nat) = 62 from rfl]
  have e2 : ibm370_to_ieee754 [0x39, 0x44, 0xb8, 0x2f, 0xa0, 0x9b, 0x5a, 0x54] =
      (19342813113834068 : ℚ) / 2 ^ 84 := by
    norm_num [ibm370_to_ieee754, ldexp, range_one_seven,
      show (57 &&& 128 : Nat) = 0 from rfl, show (57 &&& 127 : Nat) = 57 from rfl]
  rw [e1, e2, abs_sub_lt_iff, abs_sub_lt_iff]
  norm_num

/-- C10: flipping the top bit of byte 0 negates the converted value. -/
theorem claim10_ibm370_sign_flip (b : List Nat) (hlen : b.length = 8)
    (hb0 : b.getD 0 0 < 256) :
    ibm370_to_ieee754 (b.set 0 (b.getD 0 0 ^^^ 0x80)) = -ibm370_to_ieee754 b := by
  have h8 : 0 < b.length := by omega
  have hm : mantissaSpec (b.set 0 (b.getD 0 0 ^^^ 0x80)) = mantissaSpec b := by
    simp only [mantissaSpec, getD_set_ne_zero b _ 1 (by norm_num),
      getD_set_ne_zero b _ 2 (by norm_num), getD_set_ne_zero b _ 3 (by norm_num),
      getD_set_ne_zero b _ 4 (by norm_num), getD_set_ne_zero b _ 5 (by norm_num),
      getD_set_ne_zero b _ 6 (by norm_num), getD_set_ne_zero b _ 7 (by norm_num)]
  have key := flip_facts (b.getD 0 0) hb0
  rw [ibm370_eq, ibm370_eq, hm, getD_set_zero b _ h8, key.2]
  by_cases hs : b.getD 0 0 &&& 128 = 0
  · have hs' : (b.getD 0 0 ^^^ 128) &&& 128 ≠ 0 := fun hcon => (key.1.mp hcon) hs
    rw [if_pos hs', if_neg (by simpa using hs)]
    ring
  · have hs' : (b.getD 0 0 ^^^ 128) &&& 128 = 0 := key.1.mpr hs
    rw [if_neg (by simpa using hs'), if_pos hs]
    ring

/-- Witness for C10 at the 0.001 test vector: flipping its sign bit gives
the conversion of the same bytes with byte 0 replaced by 0xbe. -/
theorem claim10_ibm370_sign_flip_witness :
    ibm370_to_ieee754
        (([0x3e, 0x41, 0x89, 0x37, 0x4b, 0xc6, 0xa7, 0xf0] : List Nat).set 0
          (([0x3e, 0x41, 0x89, 0x37, 0x4b, 0xc6, 0xa7, 0xf0] : List Nat).getD 0 0 ^^^ 0x80)) =
      -ibm370_to_ieee754 [0x3e, 0x41, 0x89, 0x37, 0x4b, 0xc6, 0xa7, 0xf0] :=
  claim10_ibm370_sign_flip _ rfl (by decide)

/-! ## The record reader, field decoder and driver: helper lemmas and claims -/

lemma dat_size_pos {t : Int} {w : Nat} (h : dat_size t = some w) : 0 < w := by
  unfold dat_size at h
  split_ifs at h <;> simp_all <;> omega

lemma fdiv_count (L w : Nat) (h4 : 4 ≤ L) (hw : 0 < w) :
    (((L : Int) - 4).fdiv (w : Int)).toNat = (L - 4) / w := by
  have h : ((L : Int) - 4) = ((L - 4 : Nat) : Int) := by omega
  rw [h, Int.fdiv_eq_ediv _ (by positivity), ← Int.natCast_div]
  exact Int.toNat_natCast _

lemma readChunks_spec (w : Nat) : ∀ (n : Nat) (s : ByteStream),
    s.pos + n * w ≤ s.data.length →
    (readChunks n w s).2 = ⟨s.data, s.pos + n * w⟩ ∧
    ((readChunks n w s).1.map List.length).sum = n * w := by
  intro n
  induction n with
  | zero =>
    intro s h
    exact ⟨by simp [readChunks], by simp [readChunks]⟩
  | succ m ih =>
    intro s h
    have hsm : (m + 1) * w = m * w + w := by ring
    rw [hsm] at h
    have hchunk : ((s.data.drop s.pos).take w).length = w := by
      rw [List.length_take, List.length_drop]
      exact min_eq_left (by omega)
    have hread : s.read w = ((s.data.drop s.pos).take w, ⟨s.data, s.pos + w⟩) := by
      rw [ByteStream.read, hchunk]
    have hih := ih ⟨s.data, s.pos + w⟩ (by
      show s.pos + w + m * w ≤ s.data.length
      omega)
    have hexp : readChunks (m + 1) w s =
        ((s.data.drop s.pos).take w :: (readChunks m w ⟨s.data, s.pos + w⟩).1,
          (readChunks m w ⟨s.data, s.pos + w⟩).2) := by
      rw [readChunks]
      rw [hread]
    rw [hexp]
    constructor
    · show (readChunks m w ⟨s.data, s.pos + w⟩).2 = _
      rw [hih.1]
      have harith : s.pos + w + m * w = s.pos + (m + 1) * w := by ring
      rw [harith]
    · simp only [List.map_cons, List.sum_cons, hchunk, hih.2]
      ring

/-- General behavior of the payload loop with no byte-count requirement:
the reads saturate at end of source, so the loop never fails; it collects
min (n * w) (bytes remaining) payload bytes in total, the last chunks short
or empty once the source is exhausted. -/
lemma readChunks_total (w : Nat) : ∀ (n : Nat) (dta : List Nat) (p : Nat),
    (readChunks n w ⟨dta, p⟩).2 = ⟨dta, p + min (n * w) (dta.length - p)⟩ ∧
    ((readChunks n w ⟨dta, p⟩).1.map List.length).sum = min (n * w) (dta.length - p) := by
  intro n
  induction n with
  | zero =>
    intro dta p
    constructor
    · simp [readChunks]
    · simp [readChunks]
  | succ m ih =>
    intro dta p
    have hsm : (m + 1) * w = m * w + w := by ring
    have hchunk : ((dta.drop p).take w).length = min w (dta.length - p) := by
      rw [List.length_take, List.length_drop]
    have hread : (⟨dta, p⟩ : ByteStream).read w =
        ((dta.drop p).take w, ⟨dta, p + min w (dta.length - p)⟩) := by
      simp [ByteStream.read, hchunk]
    have hih := ih dta (p + min w (dta.length - p))
    have hexp : readChunks (m + 1) w ⟨dta, p⟩ =
        ((dta.drop p).take w ::
          (readChunks m w ⟨dta, p + min w (dta.length - p)⟩).1,
          (readChunks m w ⟨dta, p + min w (dta.length - p)⟩).2) := by
      rw [readChunks, hread]
    rw [hexp, hsm]
    constructor
    · rw [hih.1]
      congr 1
      generalize m * w = P
      omega
    · simp only [List.map_cons, List.sum_cons, hchunk, hih.2]
      generalize m * w = P
      omega

lemma read_two (s : ByteStream) (x y : Nat) (rest : List Nat)
    (h : s.data.drop s.pos = x :: y :: rest) :
    s.read 2 = ([x, y], ⟨s.data, s.pos + 2⟩) := by
  simp [ByteStream.read, h]

lemma read_one (dta : List Nat) (p x : Nat) (rest : List Nat)
    (h : dta.drop p = x :: rest) :
    (⟨dta, p⟩ : ByteStream).read 1 = ([x], ⟨dta, p + 1⟩) := by
  simp [ByteStream.read, h]

lemma read_one' (dta : List Nat) (p : Nat) (h : dta.drop p = []) :
    (⟨dta, p⟩ : ByteStream).read 1 = ([], ⟨dta, p⟩) := by
  simp [ByteStream.read, h]

lemma readStream_success (s : ByteStream) (h0 h1 t d : Nat) (tail : List Nat) (w : Nat)
    (hdrop : s.data.drop s.pos = h0 :: h1 :: t :: d :: tail)
    (hu : h0 * 256 + h1 < 32768) (h4 : 4 ≤ h0 * 256 + h1)
    (hw : dat_size (toSigned8 d) = some w) :
    readStream s =
      (some ⟨((h0 * 256 + h1 : Nat) : Int), toSigned8 t, toSigned8 d,
        (readChunks ((h0 * 256 + h1 - 4) / w) w ⟨s.data, s.pos + 4⟩).1⟩,
       (readChunks ((h0 * 256 + h1 - 4) / w) w ⟨s.data, s.pos + 4⟩).2) := by
  have hd2 : s.data.drop (s.pos + 2) = t :: d :: tail := by
    rw [← List.drop_drop, hdrop]
    rfl
  have hd3 : s.data.drop (s.pos + 3) = d :: tail := by
    rw [← List.drop_drop, hdrop]
    rfl
  have hts : toSigned16 (h0 * 256 + h1) = ((h0 * 256 + h1 : Nat) : Int) := by
    rw [toSigned16, if_pos hu]
  have hcount : ((((h0 * 256 + h1 : Nat) : Int) - 4).fdiv (w : Int)).toNat =
      (h0 * 256 + h1 - 4) / w := fdiv_count _ w h4 (dat_size_pos hw)
  unfold readStream
  rw [read_two s h0 h1 (t :: d :: tail) hdrop]
  simp only [unpack_s16, hts]
  rw [read_one s.data (s.pos + 2) t (d :: tail) hd2]
  simp only [unpack_s8]
  rw [read_one s.data (s.pos + 3) d tail hd3]
  simp only [unpack_s8, hw, hcount]

/-- Total number of payload bytes carried by a readStream result. -/
def payloadBytes (o : Option GdsRecord) : Nat :=
  match o with
  | none => 0
  | some r => (r.rec_data.map List.length).sum

/-- C4: for every valid record (declared length at least 4 and below 2^15,
a supported data type tag, (length - 4) an exact multiple of the tag's
element width, and at least length - 4 payload bytes remaining), readStream
returns a record carrying exactly length - 4 payload bytes after the 4-byte
header and advances the source position by exactly the declared length from
the record's start. -/
theorem claim4_read_record_advance (s : ByteStream) (h0 h1 t d : Nat)
    (tail : List Nat) (w : Nat)
    (hdrop : s.data.drop s.pos = h0 :: h1 :: t :: d :: tail)
    (hu : h0 * 256 + h1 < 32768) (h4 : 4 ≤ h0 * 256 + h1)
    (hw : dat_size (toSigned8 d) = some w)
    (hdvd : w ∣ (h0 * 256 + h1 - 4))
    (hrem : h0 * 256 + h1 - 4 ≤ tail.length) :
    (readStream s).1 ≠ none ∧
    payloadBytes (readStream s).1 = h0 * 256 + h1 - 4 ∧
    (readStream s).2.pos = s.pos + (h0 * 256 + h1) := by
  have hL := readStream_success s h0 h1 t d tail w hdrop hu h4 hw
  have hlen_data : s.data.length = s.pos + 4 + tail.length := by
    have hc := congrArg List.length hdrop
    rw [List.length_drop] at hc
    simp at hc
    omega
  have hnw : ((h0 * 256 + h1 - 4) / w) * w = h0 * 256 + h1 - 4 :=
    Nat.div_mul_cancel hdvd
  have hcs := readChunks_spec w ((h0 * 256 + h1 - 4) / w) ⟨s.data, s.pos + 4⟩ (by
    show s.pos + 4 + ((h0 * 256 + h1 - 4) / w) * w ≤ s.data.length
    rw [hnw]
    omega)
  rw [hL]
  refine ⟨by simp, ?_, ?_⟩
  · show payloadBytes (some _) = _
    rw [payloadBytes]
    rw [hcs.2, hnw]
  · show (readChunks _ _ _).2.pos = _
    rw [hcs.1]
    show s.pos + 4 + ((h0 * 256 + h1 - 4) / w) * w = _
    rw [hnw]
    omega

theorem claim4_read_record_advance_witness :
    (readStream ⟨[0, 8, 0, 2, 9, 9, 255, 255], 0⟩).1 ≠ none ∧
    payloadBytes (readStream ⟨[0, 8, 0, 2, 9, 9, 255, 255], 0⟩).1 = 0 * 256 + 8 - 4 ∧
    (readStream ⟨[0, 8, 0, 2, 9, 9, 255, 255], 0⟩).2.pos = 0 + (0 * 256 + 8) :=
  claim4_read_record_advance ⟨[0, 8, 0, 2, 9, 9, 255, 255], 0⟩ 0 8 0 2 [9, 9, 255, 255] 2
    rfl (by norm_num) (by norm_num) (by decide) (by norm_num) (by norm_num)

set_option maxHeartbeats 2000000 in
/-- C5 counterexample, refuting two clauses of the claim at concrete inputs.
First, a record with declared length 7 and data type Int16 (element width 2)
has (7 - 4) not a multiple of 2, yet readStream does not fail: it silently
truncates, returning one 2-byte chunk and stopping at position 6, one byte
short of the declared length.  Second, a record with declared length 8 and
data type Int16 whose source ends after one payload byte (a truncated
payload) also does not fail: readStream returns one short and one empty
chunk and stops at end of source. -/
theorem claim5_counterexample :
    ((readStream ⟨[0, 7, 0, 2, 0, 1, 170], 0⟩).1 = some ⟨7, 0, 2, [[0, 1]]⟩ ∧
      (readStream ⟨[0, 7, 0, 2, 0, 1, 170], 0⟩).2.pos = 6) ∧
    ((readStream ⟨[0, 8, 0, 2, 0], 0⟩).1 = some ⟨8, 0, 2, [[0], []]⟩ ∧
      (readStream ⟨[0, 8, 0, 2, 0], 0⟩).2.pos = 5) := by
  refine ⟨⟨?_, ?_⟩, ?_, ?_⟩ <;> rfl

/-- C5 (amended): readStream has a single opaque failure value (-1 in the
source, `none` here), not distinct error kinds.  It fails when fewer than
4 bytes remain for the header and when the data type tag is outside the
closed table.  Once the header parses and the tag is known it never fails:
it reads floor((length - 4) / width) chunks, so a (length - 4) that is not
a multiple of the width is silently truncated rather than an error, and a
payload with fewer bytes remaining than required yields short or empty
chunks rather than an error, collecting
min (floor((length - 4) / width) * width) (bytes remaining) payload bytes
in total. -/
theorem claim5_amended :
    (∀ s : ByteStream, s.data.length - s.pos < 4 → (readStream s).1 = none) ∧
    (∀ (s : ByteStream) (h0 h1 t d : Nat) (tail : List Nat),
      s.data.drop s.pos = h0 :: h1 :: t :: d :: tail →
      dat_size (toSigned8 d) = none →
      (readStream s).1 = none) ∧
    (∀ (s : ByteStream) (h0 h1 t d : Nat) (tail : List Nat) (w : Nat),
      s.data.drop s.pos = h0 :: h1 :: t :: d :: tail →
      h0 * 256 + h1 < 32768 → 4 ≤ h0 * 256 + h1 →
      dat_size (toSigned8 d) = some w →
      (readStream s).1 ≠ none ∧
      payloadBytes (readStream s).1 =
        min (((h0 * 256 + h1 - 4) / w) * w) tail.length ∧
      (readStream s).2.pos =
        s.pos + 4 + min (((h0 * 256 + h1 - 4) / w) * w) tail.length) := by
  refine ⟨?_, ?_, ?_⟩
  · intro s h
    have hlen : (s.data.drop s.pos).length < 4 := by
      rw [List.length_drop]
      omega
    rcases hrest : s.data.drop s.pos with _ | ⟨a, _ | ⟨b, _ | ⟨c, _ | ⟨e, tl⟩⟩⟩⟩
    · unfold readStream
      simp [ByteStream.read, hrest, unpack_s16]
    · unfold readStream
      simp [ByteStream.read, hrest, unpack_s16]
    · have hd2 : s.data.drop (s.pos + 2) = [] := by
        rw [← List.drop_drop, hrest]
        rfl
      unfold readStream
      rw [read_two s a b [] hrest]
      simp only [unpack_s16]
      rw [read_one' s.data (s.pos + 2) hd2]
      simp [unpack_s8]
    · have hd2 : s.data.drop (s.pos + 2) = [c] := by
        rw [← List.drop_drop, hrest]
        rfl
      have hd3 : s.data.drop (s.pos + 3) = [] := by
        rw [← List.drop_drop, hrest]
        rfl
      unfold readStream
      rw [read_two s a b [c] hrest]
      simp only [unpack_s16]
      rw [read_one s.data (s.pos + 2) c [] hd2]
      simp only [unpack_s8]
      rw [read_one' s.data (s.pos + 3) hd3]
    · rw [hrest] at hlen
      simp at hlen
      omega
  · intro s h0 h1 t d tail hdrop hdt
    have hd2 : s.data.drop (s.pos + 2) = t :: d :: tail := by
      rw [← List.drop_drop, hdrop]
      rfl
    have hd3 : s.data.drop (s.pos + 3) = d :: tail := by
      rw [← List.drop_drop, hdrop]
      rfl
    unfold readStream
    rw [read_two s h0 h1 (t :: d :: tail) hdrop]
    simp only [unpack_s16]
    rw [read_one s.data (s.pos + 2) t (d :: tail) hd2]
    simp only [unpack_s8]
    rw [read_one s.data (s.pos + 3) d tail hd3]
    simp [unpack_s8, hdt]
  · intro s h0 h1 t d tail w hdrop hu h4 hw
    have hL := readStream_success s h0 h1 t d tail w hdrop hu h4 hw
    have hlen_data : s.data.length = s.pos + 4 + tail.length := by
      have hc := congrArg List.length hdrop
      rw [List.length_drop] at hc
      simp at hc
      omega
    have hct := readChunks_total w ((h0 * 256 + h1 - 4) / w) s.data (s.pos + 4)
    have htl : s.data.length - (s.pos + 4) = tail.length := by omega
    rw [hL]
    refine ⟨by simp, ?_, ?_⟩
    · show payloadBytes (some _) = _
      rw [payloadBytes, hct.2, htl]
    · show (readChunks _ _ _).2.pos = _
      rw [hct.1]
      show s.pos + 4 +
          min (((h0 * 256 + h1 - 4) / w) * w) (s.data.length - (s.pos + 4)) = _
      rw [htl]

theorem claim5_amended_witness :
    (readStream ⟨[5], 0⟩).1 = none ∧
    (readStream ⟨[0, 6, 0, 9, 1, 2], 0⟩).1 = none ∧
    ((readStream ⟨[0, 8, 0, 2, 0], 0⟩).1 ≠ none ∧
      payloadBytes (readStream ⟨[0, 8, 0, 2, 0], 0⟩).1 =
        min (((0 * 256 + 8 - 4) / 2) * 2) 1 ∧
      (readStream ⟨[0, 8, 0, 2, 0], 0⟩).2.pos =
        0 + 4 + min (((0 * 256 + 8 - 4) / 2) * 2) 1) :=
  ⟨claim5_amended.1 ⟨[5], 0⟩ (by norm_num),
   claim5_amended.2.1 ⟨[0, 6, 0, 9, 1, 2], 0⟩ 0 6 0 9 [1, 2] rfl (by decide),
   claim5_amended.2.2 ⟨[0, 8, 0, 2, 0], 0⟩ 0 8 0 2 [0] 2 rfl
     (by norm_num) (by norm_num) (by decide)⟩

/-- Spec-side definition: the big-endian value of a byte sequence. -/
def beNat (c : List Nat) : Nat := c.foldl (fun a b => a * 256 + b) 0

/-- Spec-side definition: reinterpret an unsigned value as a two's-complement
signed integer of the given bit width. -/
def twosComplement (bits : Nat) (u : Nat) : Int :=
  if u < 2 ^ (bits - 1) then (u : Int) else (u : Int) - 2 ^ bits

/-- Spec-side definition: signed 16-bit big-endian two's-complement value. -/
def int16BE (c : List Nat) : Int := twosComplement 16 (beNat c)

/-- Spec-side definition: signed 32-bit big-endian two's-complement value. -/
def int32BE (c : List Nat) : Int := twosComplement 32 (beNat c)

/-- Spec-side definition: the standard big-endian IEEE754 single-precision
interpretation of four bytes, by the textbook field decomposition: sign is
bit 7 of byte 0, the exponent the next eight bits, the fraction the low
23 bits. -/
def ieee754SingleBE (c : List Nat) : Option ℚ :=
  f32val (if (c.getD 0 0).testBit 7 then 1 else 0)
    ((c.getD 0 0) % 128 * 2 + (c.getD 1 0) / 128)
    ((c.getD 1 0) % 128 * 65536 + (c.getD 2 0) * 256 + (c.getD 3 0))

lemma unpack_s16_eq (c : List Nat) (h : c.length = 2) :
    unpack_s16 c = some (int16BE c) := by
  match c, h with
  | [a, b], _ =>
    have hb : beNat [a, b] = a * 256 + b := by
      simp [beNat]
    rw [unpack_s16, int16BE, hb, toSigned16, twosComplement]
    norm_num

lemma unpack_s32_eq (c : List Nat) (h : c.length = 4) :
    unpack_s32 c = some (int32BE c) := by
  match c, h with
  | [a, b, c2, d], _ =>
    have hb : beNat [a, b, c2, d] = ((a * 256 + b) * 256 + c2) * 256 + d := by
      simp [beNat]
    rw [unpack_s32, int32BE, hb, twosComplement]
    norm_num

lemma unpack_f32_eq (c : List Nat) (h : c.length = 4) (hb : ∀ b ∈ c, b < 256) :
    unpack_f32 c = some (ieee754SingleBE c) := by
  match c, h with
  | [a, b, c2, d], _ =>
    have ha' : a < 256 := hb a (by simp)
    have hb' : b < 256 := hb b (by simp)
    have hc' : c2 < 256 := hb c2 (by simp)
    have hd' : d < 256 := hb d (by simp)
    have e1 : (((a * 256 + b) * 256 + c2) * 256 + d) >>> 31 =
        (if a.testBit 7 then 1 else 0) := by
      rw [Nat.shiftRight_eq_div_pow, Nat.testBit_to_div_mod]
      by_cases hbit : a / 2 ^ 7 % 2 = 1
      · rw [if_pos (by simpa using hbit)]
        omega
      · rw [if_neg (by simpa using hbit)]
        omega
    have e2 : ((((a * 256 + b) * 256 + c2) * 256 + d) >>> 23) % 256 =
        a % 128 * 2 + b / 128 := by
      rw [Nat.shiftRight_eq_div_pow]
      omega
    have e3 : (((a * 256 + b) * 256 + c2) * 256 + d) % 8388608 =
        b % 128 * 65536 + c2 * 256 + d := by
      omega
    show some (f32val ((((a * 256 + b) * 256 + c2) * 256 + d) >>> 31)
        (((((a * 256 + b) * 256 + c2) * 256 + d) >>> 23) % 256)
        ((((a * 256 + b) * 256 + c2) * 256 + d) % 8388608)) =
      some (f32val (if a.testBit 7 then 1 else 0) (a % 128 * 2 + b / 128)
        (b % 128 * 65536 + c2 * 256 + d))
    rw [e1, e2, e3]

lemma mapMO_eq_map (f : α → Option β) (g : α → β) :
    ∀ l : List α, (∀ a ∈ l, f a = some (g a)) → mapMO f l = some (l.map g) := by
  intro l
  induction l with
  | nil => intro h; rfl
  | cons a l ih =>
    intro h
    rw [mapMO, h a (List.mem_cons_self a l),
      ih (fun x hx => h x (List.mem_cons_of_mem a hx))]
    rfl

lemma mapMO_eq_none_iff (f : α → Option β) :
    ∀ l : List α, (mapMO f l = none ↔ ∃ a ∈ l, f a = none) := by
  intro l
  induction l with
  | nil =>
    constructor
    · intro h
      exact absurd h (by simp [mapMO])
    · rintro ⟨x, hx, _⟩
      exact absurd hx (by simp)
  | cons a l ih =>
    constructor
    · intro h
      rcases hfa : f a with _ | b
      · exact ⟨a, List.mem_cons_self a l, hfa⟩
      · rcases hml : mapMO f l with _ | bs
        · obtain ⟨x, hx, hfx⟩ := ih.mp hml
          exact ⟨x, List.mem_cons_of_mem a hx, hfx⟩
        · rw [mapMO, hfa, hml] at h
          simp at h
    · rintro ⟨x, hx, hfx⟩
      rcases List.mem_cons.mp hx with rfl | hx'
      · rw [mapMO, hfx]
      · rw [mapMO]
        rcases hfa : f a with _ | b
        · rfl
        · rw [ih.mpr ⟨x, hx', hfx⟩]

/-- C6: extractData dispatches solely on the data type tag: tags 0x00 and
0x01 yield the empty sequence; each 2-byte chunk of an Int16 record yields
its signed 16-bit big-endian two's-complement integer, each 4-byte chunk of
an Int32 record its signed 32-bit big-endian two's-complement integer, and
each 4-byte chunk of a Real32 record its standard big-endian IEEE754
single-precision interpretation, in chunk order. -/
theorem claim6_extract_dispatch (r : GdsRecord) :
    ((r.dat_type = 0 ∨ r.dat_type = 1) → extractData r = some []) ∧
    (r.dat_type = 2 → r.rec_data.length = ((r.rec_size - 4).fdiv 2).toNat →
      (∀ c ∈ r.rec_data, c.length = 2) →
      extractData r = some (r.rec_data.map (fun c => DecodedValue.intVal (int16BE c)))) ∧
    (r.dat_type = 3 → r.rec_data.length = ((r.rec_size - 4).fdiv 4).toNat →
      (∀ c ∈ r.rec_data, c.length = 4) →
      extractData r = some (r.rec_data.map (fun c => DecodedValue.intVal (int32BE c)))) ∧
    (r.dat_type = 4 → r.rec_data.length = ((r.rec_size - 4).fdiv 4).toNat →
      (∀ c ∈ r.rec_data, c.length = 4) → (∀ c ∈ r.rec_data, ∀ b ∈ c, b < 256) →
      extractData r = some (r.rec_data.map (fun c => DecodedValue.f32Val (ieee754SingleBE c)))) := by
  refine ⟨?_, ?_, ?_, ?_⟩
  · rintro (h | h) <;> simp [extractData, h]
  · intro ht hlen hlens
    have hloc : extractData r = indexMapM r.rec_data ((r.rec_size - 4).fdiv 2).toNat
        (fun c => (unpack_s16 c).map DecodedValue.intVal) := by
      simp [extractData, ht]
    rw [hloc, ← hlen, indexMapM, if_pos (le_refl _), List.take_length]
    exact mapMO_eq_map _ _ r.rec_data
      (fun c hc => by rw [unpack_s16_eq c (hlens c hc)]; rfl)
  · intro ht hlen hlens
    have hloc : extractData r = indexMapM r.rec_data ((r.rec_size - 4).fdiv 4).toNat
        (fun c => (unpack_s32 c).map DecodedValue.intVal) := by
      simp [extractData, ht]
    rw [hloc, ← hlen, indexMapM, if_pos (le_refl _), List.take_length]
    exact mapMO_eq_map _ _ r.rec_data
      (fun c hc => by rw [unpack_s32_eq c (hlens c hc)]; rfl)
  · intro ht hlen hlens hbytes
    have hloc : extractData r = indexMapM r.rec_data ((r.rec_size - 4).fdiv 4).toNat
        (fun c => (unpack_f32 c).map DecodedValue.f32Val) := by
      simp [extractData, ht]
    rw [hloc, ← hlen, indexMapM, if_pos (le_refl _), List.take_length]
    exact mapMO_eq_map _ _ r.rec_data
      (fun c hc => by rw [unpack_f32_eq c (hlens c hc) (hbytes c hc)]; rfl)

theorem claim6_extract_dispatch_witness :
    extractData ⟨4, 17, 0, []⟩ = some [] ∧
    extractData ⟨6, 13, 2, [[255, 254]]⟩ =
      some ([[255, 254]].map (fun c => DecodedValue.intVal (int16BE c))) ∧
    extractData ⟨8, 16, 3, [[255, 255, 255, 251]]⟩ =
      some ([[255, 255, 255, 251]].map (fun c => DecodedValue.intVal (int32BE c))) ∧
    extractData ⟨8, 3, 4, [[63, 128, 0, 0]]⟩ =
      some ([[63, 128, 0, 0]].map (fun c => DecodedValue.f32Val (ieee754SingleBE c))) :=
  ⟨(claim6_extract_dispatch ⟨4, 17, 0, []⟩).1 (Or.inl rfl),
   (claim6_extract_dispatch ⟨6, 13, 2, [[255, 254]]⟩).2.1 rfl (by decide) (by decide),
   (claim6_extract_dispatch ⟨8, 16, 3, [[255, 255, 255, 251]]⟩).2.2.1 rfl
     (by decide) (by decide),
   (claim6_extract_dispatch ⟨8, 3, 4, [[63, 128, 0, 0]]⟩).2.2.2 rfl
     (by decide) (by decide) (by decide)⟩

lemma length_one_eq (c : List Nat) (h : c.length = 1) : ∃ b, c = [b] := by
  rcases c with _ | ⟨b, rest⟩
  · simp at h
  · rcases rest with _ | ⟨x, xs⟩
    · exact ⟨b, rfl⟩
    · simp at h

/-- C7: for an ASCII record (tag 0x06, the default dispatch case),
extractData turns each 1-byte chunk into one UTF-8 code unit in order, and
fails if and only if some payload byte is not a valid standalone UTF-8
unit, that is, is at least 0x80. -/
theorem claim7_extract_ascii (r : GdsRecord) (ht : r.dat_type = 6)
    (hlen : r.rec_data.length = (r.rec_size - 4).toNat)
    (hc : ∀ c ∈ r.rec_data, c.length = 1) :
    (extractData r = none ↔ ∃ c ∈ r.rec_data, ∃ b ∈ c, 128 ≤ b) ∧
    ((∀ c ∈ r.rec_data, ∀ b ∈ c, b < 128) →
      extractData r = some (r.rec_data.map
        (fun c => DecodedValue.charVal (Char.ofNat (c.headD 0))))) := by
  have hloc : extractData r = indexMapM r.rec_data (r.rec_size - 4).toNat
      (fun c => (unpack_c c).map DecodedValue.charVal) := by
    simp [extractData, ht]
  rw [hloc, ← hlen, indexMapM, if_pos (le_refl _), List.take_length]
  constructor
  · rw [mapMO_eq_none_iff]
    constructor
    · rintro ⟨c, hcm, hcn⟩
      obtain ⟨b, rfl⟩ := length_one_eq c (hc c hcm)
      refine ⟨[b], hcm, b, by simp, ?_⟩
      by_contra hlt
      rw [unpack_c] at hcn
      rw [if_pos (by omega)] at hcn
      simp at hcn
    · rintro ⟨c, hcm, b, hbm, hb⟩
      obtain ⟨b', rfl⟩ := length_one_eq c (hc c hcm)
      have hbb : b = b' := by simpa using hbm
      subst hbb
      refine ⟨[b], hcm, ?_⟩
      rw [unpack_c, if_neg (by omega)]
      rfl
  · intro hlt
    refine mapMO_eq_map _ _ r.rec_data (fun c hcm => ?_)
    obtain ⟨b, rfl⟩ := length_one_eq c (hc c hcm)
    rw [unpack_c, if_pos (hlt [b] hcm b (by simp))]
    rfl

theorem claim7_extract_ascii_witness :
    (extractData ⟨7, 2, 6, [[72], [105], [33]]⟩ = none ↔
      ∃ c ∈ [[72], [105], [33]], ∃ b ∈ c, 128 ≤ b) ∧
    ((∀ c ∈ ([[72], [105], [33]] : List (List Nat)), ∀ b ∈ c, b < 128) →
      extractData ⟨7, 2, 6, [[72], [105], [33]]⟩ =
        some ([[72], [105], [33]].map
          (fun c => DecodedValue.charVal (Char.ofNat (c.headD 0))))) :=
  claim7_extract_ascii ⟨7, 2, 6, [[72], [105], [33]]⟩ rfl (by decide) (by decide)

lemma mainLoop_step (f : Nat) (s s' : ByteStream) (acc : List Entry) (r : GdsRecord)
    (d : List DecodedValue) (n : String)
    (h : readStream s = (some r, s')) (hd : extractData r = some d)
    (hn : appendName r = some n) :
    mainLoop (f + 1) s acc =
      if r.rec_type = 4 then some (acc ++ [(n, d)])
      else mainLoop f s' (acc ++ [(n, d)]) := by
  simp only [mainLoop, h, hd, hn]

set_option maxHeartbeats 2000000 in
/-- C8: a stream of exactly a HEADER record (type 0x00, here with the
standard 2-byte Int16 version payload) followed by an ENDLIB record
(type 0x04, length 4, no payload) decodes to exactly two entries and
terminates without error; the driver appends the terminator's entry and
stops only on record type 0x04 (the first record, of type 0x00, does not
stop it). -/
theorem claim8_driver_two_records (b0 b1 : Nat) :
    runDecoder ⟨[0, 6, 0, 2, b0, b1, 0, 4, 4, 0], 0⟩ =
      some [("HEADER", [DecodedValue.intVal (toSigned16 (b0 * 256 + b1))]),
        ("ENDLIB", [])] := by
  have h1 : readStream ⟨[0, 6, 0, 2, b0, b1, 0, 4, 4, 0], 0⟩ =
      (some ⟨6, 0, 2, [[b0, b1]]⟩, ⟨[0, 6, 0, 2, b0, b1, 0, 4, 4, 0], 6⟩) := rfl
  have h2 : extractData ⟨6, 0, 2, [[b0, b1]]⟩ =
      some [DecodedValue.intVal (toSigned16 (b0 * 256 + b1))] := rfl
  have h3 : appendName ⟨6, 0, 2, [[b0, b1]]⟩ = some "HEADER" := rfl
  have h4 : readStream ⟨[0, 6, 0, 2, b0, b1, 0, 4, 4, 0], 6⟩ =
      (some ⟨4, 4, 0, []⟩, ⟨[0, 6, 0, 2, b0, b1, 0, 4, 4, 0], 10⟩) := rfl
  have h5 : extractData ⟨4, 4, 0, []⟩ = some [] := rfl
  have h6 : appendName ⟨4, 4, 0, []⟩ = some "ENDLIB" := rfl
  have e0 : runDecoder ⟨[0, 6, 0, 2, b0, b1, 0, 4, 4, 0], 0⟩ =
      mainLoop (10 + 1) ⟨[0, 6, 0, 2, b0, b1, 0, 4, 4, 0], 0⟩ [] := rfl
  rw [e0, mainLoop_step 10 _ _ _ _ _ _ h1 h2 h3]
  rw [if_neg (by simp)]
  rw [mainLoop_step 9 _ _ _ _ _ _ h4 h5 h6]
  rw [if_pos (by simp)]
  simp

/-- C9: the decode run is a pure function of the source bytes and start
position: two decoder runs over byte sources holding the same immutable
data produce identical output. -/
theorem claim9_deterministic (s1 s2 : ByteStream) (hd : s1.data = s2.data)
    (hp : s1.pos = s2.pos) : runDecoder s1 = runDecoder s2 := by
  obtain ⟨d1, p1⟩ := s1
  obtain ⟨d2, p2⟩ := s2
  simp only at hd hp
  subst hd
  subst hp
  rfl

theorem claim9_deterministic_witness :
    runDecoder ⟨[0, 4, 4, 0], 0⟩ = runDecoder ⟨[0, 4, 4, 0], 0⟩ :=
  claim9_deterministic ⟨[0, 4, 4, 0], 0⟩ ⟨[0, 4, 4, 0], 0⟩ rfl rfl
